import Mathlib

/-!
Verification model of the aoede player core (src/lib/player.rs, src/main.rs).

The audio path (`EmittedSink`): `write` resamples a channel-interleaved
stereo block from 44100 Hz to 48000 Hz (samplerate::convert, Linear), encodes
every resampled 32-bit float sample as 4 little-endian bytes and pushes the
bytes one at a time into a `sync_channel::<u8>(24)`; `read` pulls bytes one
at a time from the receiving end.  Samples are modelled as rationals; the
bit pattern of a 32-bit float is abstracted by a parameter `bits : ℚ → ℕ`,
so that the little-endian byte split is explicit while float arithmetic is
kept out of the model.  The resampler lives in the external `samplerate`
crate; it is modelled from the spec (linear interpolation, 44100→48000,
ratio 160/147) below.

The control path: `voice_state_update`, the `PlayerEvent::Playing` arm of
the event loop, `disable_connect` and `ImpliedMixer` are modelled as pure
functions returning the action they perform (or `panicked` where the source
unwraps an absent value).
-/

/-- Little-endian byte split of a 32-bit pattern, as done by
`LittleEndian::write_f32_into(&[i], &mut new)` on the bits of one f32:
least significant byte first, exactly four bytes. -/
def leBytes32 (b : ℕ) : List ℕ :=
  [b % 256, b / 256 % 256, b / 65536 % 256, b / 16777216 % 256]

/-- Modelled from the spec: the number of output frames the linear resampler
produces for `n` input frames at ratio 48000/44100 = 160/147 ("producing
⌈n·48000/44100⌉-ish samples per input block"); this is ⌈n·160/147⌉. -/
def outCount (n : ℕ) : ℕ := (n * 160 + 146) / 147

/-- Sample lookup with clamping at the block edge: index `i` if in range,
otherwise the last sample (0 for an empty block). -/
def sampleAt (xs : List ℚ) (i : ℕ) : ℚ := xs.getD i (xs.getLastD 0)

/-- Modelled from the spec: linear-interpolation resampling of one channel
from 44100 Hz to 48000 Hz (the `samplerate` crate's `Linear` converter is
external to this repository).  Output sample `j` interpolates between the
input samples bracketing position `j·147/160`. -/
def resampleChannel (xs : List ℚ) : List ℚ :=
  (List.range (outCount xs.length)).map (fun (j : ℕ) =>
    let p : ℚ := (j : ℚ) * 147 / 160
    let i : ℕ := (Rat.floor p).toNat
    let t : ℚ := p - (i : ℚ)
    (1 - t) * sampleAt xs i + t * sampleAt xs (i + 1))

/-- Stereo resampling: each channel is resampled independently (channel
count 2 is preserved), frames are rebuilt pairwise. -/
def resampleStereo (frames : List (ℚ × ℚ)) : List (ℚ × ℚ) :=
  (resampleChannel (frames.map Prod.fst)).zip (resampleChannel (frames.map Prod.snd))

/-- Group a channel-interleaved sample list into stereo frames (left, right).
A dangling odd sample has no complete frame. -/
def deinterleave : List ℚ → List (ℚ × ℚ)
  | l :: r :: rest => (l, r) :: deinterleave rest
  | _ => []

/-- Flatten stereo frames back into a channel-interleaved sample list. -/
def interleave : List (ℚ × ℚ) → List ℚ
  | [] => []
  | (l, r) :: rest => l :: r :: interleave rest

/-- Modelled from the spec: `samplerate::convert(44100, 48000, 2, Linear,
samples)` on the interleaved input; it fails on malformed input (a sample
count that does not divide into 2-channel frames), otherwise yields the
interleaved resampled block. -/
def convert (input : List ℚ) : Option (List ℚ) :=
  if input.length % 2 = 0 then
    some (interleave (resampleStereo (deinterleave input)))
  else none

/-- Encoding of a sample list into bytes: each sample contributes the four
little-endian bytes of its 32-bit pattern (`bits`), in sample order. -/
def encodeSamples (bits : ℚ → ℕ) (xs : List ℚ) : List ℕ :=
  xs.flatMap (fun s => leBytes32 (bits s))

/-- Per-block encoding realised by a successful `EmittedSink::write`:
resample the interleaved block, then emit 4 little-endian bytes per sample. -/
def encodeBlock (bits : ℚ → ℕ) (packet : List ℚ) : List ℕ :=
  encodeSamples bits (interleave (resampleStereo (deinterleave packet)))

/-- Result of `EmittedSink::write`: `ok` with the bytes now queued behind the
previous queue contents, or `panicked` when the `.unwrap()` on the resampler
result aborts. -/
inductive WriteResult where
  | ok (queue : List ℕ)
  | panicked
deriving DecidableEq

/-- Model of `EmittedSink::write`: convert the packet (unwrapping the
result — a conversion failure panics), then append the per-sample
little-endian bytes, in order, to the byte queue. -/
def write (bits : ℚ → ℕ) (q : List ℕ) (packet : List ℚ) : WriteResult :=
  match convert packet with
  | none => WriteResult.panicked
  | some resampled => WriteResult.ok (q ++ encodeSamples bits resampled)

/-- Queue contents after writing a sequence of well-formed blocks through the
sink, starting from an empty bridge. -/
def writeAll (bits : ℚ → ℕ) (blocks : List (List ℚ)) : List ℕ :=
  blocks.foldl (fun q packet => q ++ encodeBlock bits packet) []

/-- Consumer reads: `readChunks q counts` is the list of chunks obtained by
successive `read` calls with buffer lengths `counts`, each returning exactly
its buffer length of bytes from the front of the queue. -/
def readChunks : List ℕ → List ℕ → List (List ℕ)
  | _, [] => []
  | q, c :: cs => q.take c :: readChunks (q.drop c) cs

/-- Model of the `read` loop of `EmittedSink`: `recvLoop q count` receives
`count` bytes one at a time from the front of queue `q`; `none` means the
loop cannot complete from the bytes currently available (the `recv` blocks). -/
def recvLoop : List ℕ → ℕ → Option (List ℕ × List ℕ)
  | q, 0 => some ([], q)
  | [], _ + 1 => none
  | b :: rest, c + 1 => (recvLoop rest c).map (fun br => (b :: br.1, br.2))

/-- Capacity of the byte bridge: `sync_channel::<u8>(24)`. -/
def bridgeCapacity : ℕ := 24

/-- State of the byte bridge, with cumulative push/pop counters used to state
the backpressure invariant. -/
structure BridgeState where
  queue : List ℕ
  pushed : ℕ
  popped : ℕ
deriving DecidableEq

/-- Observable bridge events: a producer-side `send` of one byte or a
consumer-side `recv` of one byte. -/
inductive BridgeLabel where
  | push (b : ℕ)
  | pop (b : ℕ)

/-- One step of the bounded channel: a `send` completes only while the buffer
holds fewer than `bridgeCapacity` bytes and appends at the tail; a `recv`
completes only on a nonempty buffer and removes the head. -/
inductive BridgeStep : BridgeState → BridgeLabel → BridgeState → Prop where
  | push (s : BridgeState) (b : ℕ) (h : s.queue.length < bridgeCapacity) :
      BridgeStep s (BridgeLabel.push b) ⟨s.queue ++ [b], s.pushed + 1, s.popped⟩
  | pop (s : BridgeState) (b : ℕ) (rest : List ℕ) (h : s.queue = b :: rest) :
      BridgeStep s (BridgeLabel.pop b) ⟨rest, s.pushed, s.popped + 1⟩

/-- The freshly created bridge of `EmittedSink::new`: empty. -/
def bridgeInit : BridgeState := ⟨[], 0, 0⟩

/-- Reachability along any interleaving of producer and consumer steps. -/
def BridgeReachable (s : BridgeState) : Prop :=
  Relation.ReflTransGen (fun a c => ∃ l, BridgeStep a l c) bridgeInit s

theorem leBytes32_length (b : ℕ) : (leBytes32 b).length = 4 := rfl

theorem encodeSamples_length (bits : ℚ → ℕ) (xs : List ℚ) :
    (encodeSamples bits xs).length = 4 * xs.length := by
  induction xs with
  | nil => rfl
  | cons x xs ih =>
      simp only [encodeSamples, List.flatMap_cons, List.length_append] at *
      simp [leBytes32] at *
      omega

theorem interleave_length (frames : List (ℚ × ℚ)) :
    (interleave frames).length = 2 * frames.length := by
  induction frames with
  | nil => rfl
  | cons f rest ih =>
      obtain ⟨l, r⟩ := f
      simp [interleave, ih]
      omega

theorem resampleChannel_length (xs : List ℚ) :
    (resampleChannel xs).length = outCount xs.length := by
  rw [resampleChannel, List.length_map, List.length_range]

theorem resampleStereo_length (frames : List (ℚ × ℚ)) :
    (resampleStereo frames).length = outCount frames.length := by
  simp [resampleStereo, resampleChannel_length]

theorem deinterleave_interleave (frames : List (ℚ × ℚ)) :
    deinterleave (interleave frames) = frames := by
  induction frames with
  | nil => rfl
  | cons f rest ih =>
      obtain ⟨l, r⟩ := f
      simp [interleave, deinterleave, ih]

theorem encodeBlock_length (bits : ℚ → ℕ) (packet : List ℚ) :
    (encodeBlock bits packet).length = 8 * outCount (deinterleave packet).length := by
  rw [encodeBlock, encodeSamples_length, interleave_length, resampleStereo_length]
  ring

theorem outCount_bounds (n : ℕ) :
    (n * 160 : ℚ) / 147 ≤ (outCount n : ℚ) ∧
      (outCount n : ℚ) < (n * 160 : ℚ) / 147 + 1 := by
  have hd := Nat.div_add_mod (n * 160 + 146) 147
  have hm : (n * 160 + 146) % 147 < 147 := Nat.mod_lt _ (by norm_num)
  have h1 : n * 160 ≤ 147 * outCount n := by unfold outCount; omega
  have h2 : 147 * outCount n < n * 160 + 147 := by unfold outCount; omega
  have hc1 : ((n : ℚ) * 160) ≤ 147 * (outCount n : ℚ) := by exact_mod_cast h1
  have hc2 : 147 * (outCount n : ℚ) < (n : ℚ) * 160 + 147 := by exact_mod_cast h2
  have h147 : (0 : ℚ) < 147 := by norm_num
  have hdm : ((n : ℚ) * 160 / 147) * 147 = (n : ℚ) * 160 :=
    div_mul_cancel₀ _ (by norm_num)
  constructor
  · rw [div_le_iff₀ h147]
    linarith
  · have hstep : (outCount n : ℚ) * 147 < ((n : ℚ) * 160 / 147 + 1) * 147 := by
      rw [add_mul, hdm]
      linarith
    exact lt_of_mul_lt_mul_right hstep (by norm_num)

theorem writeAll_foldl (bits : ℚ → ℕ) (blocks : List (List ℚ)) : ∀ q : List ℕ,
    blocks.foldl (fun acc packet => acc ++ encodeBlock bits packet) q
      = q ++ (blocks.map (encodeBlock bits)).flatten := by
  induction blocks with
  | nil => intro q; simp
  | cons b bs ih =>
      intro q
      simp only [List.foldl_cons, List.map_cons, List.flatten_cons, ih, List.append_assoc]

theorem readChunks_flatten (counts : List ℕ) : ∀ q : List ℕ,
    (readChunks q counts).flatten = q.take counts.sum := by
  induction counts with
  | nil => intro q; simp [readChunks]
  | cons c cs ih =>
      intro q
      calc (readChunks q (c :: cs)).flatten
          = q.take c ++ (readChunks (q.drop c) cs).flatten := by
            simp [readChunks]
        _ = q.take c ++ (q.drop c).take cs.sum := by rw [ih]
        _ = q.take (c + cs.sum) := (List.take_add q c cs.sum).symm
        _ = q.take (c :: cs).sum := by rw [List.sum_cons]

/-- C1: bytes pulled back out of the sink equal the concatenation of the
per-block encodings in write order — a well-formed write appends exactly its
block's encoding, the queue after all writes is the concatenation of the
encodings in push order, and any consumer chunking whose sizes exhaust the
queue reconstructs that exact byte sequence, with no byte lost, duplicated
or reordered. -/
theorem sink_order_preservation (bits : ℚ → ℕ) (blocks : List (List ℚ)) (counts : List ℕ)
    (h : counts.sum = (writeAll bits blocks).length) :
    (∀ (q : List ℕ) (packet : List ℚ), packet.length % 2 = 0 →
        write bits q packet = WriteResult.ok (q ++ encodeBlock bits packet)) ∧
    writeAll bits blocks = (blocks.map (encodeBlock bits)).flatten ∧
    (readChunks (writeAll bits blocks) counts).flatten
      = (blocks.map (encodeBlock bits)).flatten := by
  have hw : writeAll bits blocks = (blocks.map (encodeBlock bits)).flatten := by
    simpa using writeAll_foldl bits blocks []
  refine ⟨?_, hw, ?_⟩
  · intro q packet hp
    simp [write, convert, hp, encodeBlock]
  · rw [readChunks_flatten, h, List.take_length, hw]

theorem sink_order_preservation_witness :
    ([8, 8] : List ℕ).sum = (writeAll (fun _ => 0) [[0, 0]]).length ∧
    (readChunks (writeAll (fun _ => 0) [[0, 0]]) [8, 8]).flatten
      = (([[0, 0]] : List (List ℚ)).map (encodeBlock (fun _ => 0))).flatten := by
  have h : ([8, 8] : List ℕ).sum = (writeAll (fun _ => 0) [[0, 0]]).length := by decide
  exact ⟨h, (sink_order_preservation (fun _ => 0) [[0, 0]] [8, 8] h).2.2⟩

theorem bridge_invariant (s : BridgeState) (h : BridgeReachable s) :
    s.pushed = s.popped + s.queue.length ∧ s.queue.length ≤ bridgeCapacity := by
  induction h with
  | refl => simp [bridgeInit, bridgeCapacity]
  | tail _ step ih =>
      obtain ⟨l, st⟩ := step
      obtain ⟨ih1, ih2⟩ := ih
      cases st with
      | push b hlt =>
          refine ⟨?_, ?_⟩ <;> simp only [List.length_append, List.length_cons,
            List.length_nil] <;> omega
      | pop b rest hq =>
          rw [hq] at ih1 ih2
          simp only [List.length_cons] at ih1 ih2
          refine ⟨?_, ?_⟩ <;> dsimp only <;> omega

/-- C2: in every reachable state of the bounded byte bridge (capacity 24,
from `sync_channel::<u8>(24)`), the bytes pushed minus the bytes popped
equal the bytes buffered and never exceed the capacity; no producer `send`
step exists from a full bridge and no consumer `recv` step exists from an
empty bridge. -/
theorem bridge_backpressure (s : BridgeState) (h : BridgeReachable s) :
    s.pushed - s.popped ≤ bridgeCapacity ∧
    s.pushed - s.popped = s.queue.length ∧
    (s.queue.length = bridgeCapacity →
      ∀ (b : ℕ) (t : BridgeState), ¬ BridgeStep s (BridgeLabel.push b) t) ∧
    (s.queue = [] →
      ∀ (b : ℕ) (t : BridgeState), ¬ BridgeStep s (BridgeLabel.pop b) t) := by
  obtain ⟨h1, h2⟩ := bridge_invariant s h
  refine ⟨by omega, by omega, ?_, ?_⟩
  · intro hfull b t hstep
    cases hstep with
    | push _ hlt => omega
  · intro hempty b t hstep
    cases hstep with
    | pop _ rest hq => rw [hempty] at hq; exact List.noConfusion hq

theorem bridge_backpressure_witness :
    BridgeReachable ⟨[7], 1, 0⟩ ∧
    (1 : ℕ) - 0 ≤ bridgeCapacity ∧ (1 : ℕ) - 0 = ([7] : List ℕ).length := by
  have hr : BridgeReachable ⟨[7], 1, 0⟩ :=
    Relation.ReflTransGen.single
      ⟨BridgeLabel.push 7, BridgeStep.push bridgeInit 7 (by decide)⟩
  have h := bridge_backpressure ⟨[7], 1, 0⟩ hr
  exact ⟨hr, h.1, h.2.1⟩

theorem recvLoop_complete (count : ℕ) : ∀ q : List ℕ, count ≤ q.length →
    recvLoop q count = some (q.take count, q.drop count) := by
  induction count with
  | zero => intro q _; simp [recvLoop]
  | succ c ih =>
      intro q h
      cases q with
      | nil => simp at h
      | cons b rest =>
          have hr : c ≤ rest.length := by simpa using h
          simp [recvLoop, ih rest hr]

theorem recvLoop_blocks (q : List ℕ) : ∀ c : ℕ, q.length < c → recvLoop q c = none := by
  induction q with
  | nil =>
      intro c h
      cases c with
      | zero => simp at h
      | succ c => simp [recvLoop]
  | cons b rest ih =>
      intro c h
      cases c with
      | zero => simp at h
      | succ c =>
          have hr : rest.length < c := by simpa using h
          simp [recvLoop, ih c hr]

/-- C4: a `read` into a buffer of length `count` completes exactly when
`count` bytes can be received, removes precisely the first `count` bytes of
the queue in push order (the rest remain, in order), and a read asking for
more bytes than are buffered cannot complete from the available bytes — it
blocks on `recv` rather than returning fewer. -/
theorem read_exact_count (q : List ℕ) (count : ℕ) (h : count ≤ q.length) :
    recvLoop q count = some (q.take count, q.drop count) ∧
    (q.take count).length = count ∧
    q.take count ++ q.drop count = q ∧
    (∀ (p : List ℕ) (c : ℕ), p.length < c → recvLoop p c = none) := by
  refine ⟨recvLoop_complete count q h, ?_, List.take_append_drop _ _, recvLoop_blocks⟩
  rw [List.length_take]
  omega

theorem read_exact_count_witness :
    recvLoop [3, 1, 4, 1] 2 = some ([3, 1], [4, 1]) ∧
    ([3, 1, 4, 1] : List ℕ).take 2 ++ ([3, 1, 4, 1] : List ℕ).drop 2 = [3, 1, 4, 1] := by
  have h := read_exact_count [3, 1, 4, 1] 2 (by decide)
  exact ⟨h.1, h.2.2.1⟩

/-- C5: the encoder output is 4 little-endian bytes per resampled sample,
concatenated in channel-interleaved sample order; the resampled per-channel
count is within one sample of `n · 48000/44100`; a block of 10 stereo frames
encodes to 88 bytes, within one sample's worth of the nominal
`10 · (48000/44100) · 2 · 4 ≈ 87` bytes. -/
theorem encoder_output_format (bits : ℚ → ℕ) (frames : List (ℚ × ℚ)) (n : ℕ) :
    (∀ b : ℕ, (leBytes32 b).length = 4) ∧
    (∀ xs : List ℚ, encodeSamples bits xs = (xs.map (fun s => leBytes32 (bits s))).flatten) ∧
    (encodeSamples bits (interleave (resampleStereo frames))).length
      = 8 * outCount frames.length ∧
    ((n * 160 : ℚ) / 147 ≤ (outCount n : ℚ) ∧
      (outCount n : ℚ) < (n * 160 : ℚ) / 147 + 1) ∧
    (encodeBlock bits (interleave (List.replicate 10 (0, 0)))).length = 88 ∧
    |(88 : ℚ) - 10 * (48000 / 44100) * 2 * 4| ≤ 4 := by
  refine ⟨fun b => rfl, ?_, ?_, outCount_bounds n, ?_, ?_⟩
  · intro xs
    rw [encodeSamples, List.flatMap_def]
  · rw [encodeSamples_length, interleave_length, resampleStereo_length]
    ring
  · rw [encodeBlock_length, deinterleave_interleave, List.length_replicate]
    rfl
  · rw [abs_of_nonneg (by norm_num)]
    norm_num

/-- C3: a write whose resampling fails does not return an error result to the
caller — the `.unwrap()` on the conversion result panics instead.  Evaluated
at a malformed packet (a single sample, which does not divide into 2-channel
frames): the write aborts rather than reporting the failure as a result. -/
theorem write_panics_on_malformed :
    write (fun _ => 0) [] [(0 : ℚ)] = WriteResult.panicked ∧
    convert [(0 : ℚ)] = none := by
  constructor <;> rfl

/-- Voice-state record carried by a membership-change notification: the
participant it concerns and the optional voice channel they are in. -/
structure VoiceState where
  user_id : ℕ
  channel_id : Option ℕ
deriving DecidableEq

/-- The single externally visible action the presence handler takes on one
notification: enable casting, disable casting, a songbird join of a channel,
ignoring a foreign user's notification, falling through with no action, or
aborting on an `.unwrap()` of an absent channel. -/
inductive PresenceAction where
  | enable
  | disable
  | join (channel : ℕ)
  | ignored
  | noop
  | panicked
deriving DecidableEq

/-- Model of `Handler::voice_state_update`: notifications for users other
than the watched identity return at once; an absent old state enables
casting; an old channel present with the new channel absent disables
casting; otherwise the moved-channels comparison unwraps both channel ids —
joining the new channel when they differ, doing nothing when equal, and
panicking when the old state carries no channel. -/
def voice_state_update (watched : ℕ) (old : Option VoiceState)
    (new : VoiceState) : PresenceAction :=
  if new.user_id ≠ watched then PresenceAction.ignored
  else
    match old with
    | none => PresenceAction.enable
    | some o =>
      if o.channel_id.isSome && new.channel_id.isNone then PresenceAction.disable
      else
        match o.channel_id, new.channel_id with
        | some a, some b => if a ≠ b then PresenceAction.join b else PresenceAction.noop
        | none, _ => PresenceAction.panicked
        | some _, none => PresenceAction.panicked

/-- Track metadata as used by the `Playing` arm: a display name and the list
of artist ids. -/
structure Track where
  name : String
  artists : List ℕ

/-- Artist metadata as used by the `Playing` arm: a display name. -/
structure Artist where
  name : String

/-- Outcome of one iteration of the event loop on a `Playing` event: the
displayed status afterwards, or an abort of the loop task. -/
inductive EventOutcome where
  | status (s : Option String)
  | panicked
deriving DecidableEq

/-- Model of the `PlayerEvent::Playing` arm: resolve the track (a failed
lookup is silently skipped), take the first artist id (`.first().unwrap()`),
resolve the artist (a failed lookup is silently skipped), and on success set
the presence text to `"artist: track"`. -/
def handlePlaying (current : Option String) (trackResult : Option Track)
    (artistLookup : ℕ → Option Artist) : EventOutcome :=
  match trackResult with
  | none => EventOutcome.status current
  | some track =>
    match track.artists.head? with
    | none => EventOutcome.panicked
    | some aid =>
      match artistLookup aid with
      | none => EventOutcome.status current
      | some artist =>
          EventOutcome.status (some (artist.name ++ ": " ++ track.name))

/-- The fields of `SpotifyPlayer` that the connect lifecycle touches: the
optional `Spirc` handle and the optional event-channel handle (both as
opaque ids). -/
structure SpotifyPlayer where
  spirc : Option ℕ
  event_channel : Option ℕ
deriving DecidableEq

/-- Externally visible effect of the connect lifecycle operations. -/
inductive PlayerEffect where
  | shutdown
deriving DecidableEq

/-- Model of `SpotifyPlayer::disable_connect`: when a `Spirc` handle exists
its `shutdown()` is invoked; in either case no field of the player is
modified and no error is produced. -/
def disable_connect (p : SpotifyPlayer) : SpotifyPlayer × List PlayerEffect :=
  match p.spirc with
  | none => (p, [])
  | some _ => (p, [PlayerEffect.shutdown])

/-- The stub mixer `ImpliedMixer`: a unit struct. -/
structure ImpliedMixer where
deriving DecidableEq

/-- Model of `Mixer::open` for `ImpliedMixer`: ignores its configuration. -/
def ImpliedMixer.open' (_config : Option ℕ) : ImpliedMixer := ⟨⟩

/-- Model of `ImpliedMixer::volume`: the constant 50. -/
def ImpliedMixer.volume (_m : ImpliedMixer) : ℕ := 50

/-- Model of `ImpliedMixer::set_volume`: ignores the requested volume. -/
def ImpliedMixer.set_volume (m : ImpliedMixer) (_volume : ℕ) : ImpliedMixer := m

/-- Mixer constructed by `SpotifyPlayer::enable_connect`
(`Box::new(ImpliedMixer {})`): the initial volume passed to the connect
configuration never reaches it. -/
def enable_connect_mixer (_device_name : String) (_device_type : ℕ)
    (_initial_volume : ℕ) (_volume_ctrl : ℕ) : ImpliedMixer := ⟨⟩

/-- C6: the presence transition table of `voice_state_update` for the
watched participant — absent old membership yields exactly an enable, an old
channel with the new channel absent yields exactly a disable, and a move
between two distinct channels yields exactly a join of the new channel,
with no enable or disable. -/
theorem presence_transitions (w u a b : ℕ) (new : VoiceState) :
    (new.user_id = w → voice_state_update w none new = PresenceAction.enable) ∧
    voice_state_update w (some ⟨u, some a⟩) ⟨w, none⟩ = PresenceAction.disable ∧
    (a ≠ b → voice_state_update w (some ⟨u, some a⟩) ⟨w, some b⟩
        = PresenceAction.join b) := by
  refine ⟨?_, ?_, ?_⟩
  · intro h
    simp [voice_state_update, h]
  · simp [voice_state_update]
  · intro h
    simp [voice_state_update, h]

theorem presence_transitions_witness :
    voice_state_update 1 none ⟨1, some 2⟩ = PresenceAction.enable ∧
    voice_state_update 1 (some ⟨1, some 2⟩) ⟨1, none⟩ = PresenceAction.disable ∧
    voice_state_update 1 (some ⟨1, some 2⟩) ⟨1, some 3⟩ = PresenceAction.join 3 := by
  have h := presence_transitions 1 1 2 3 ⟨1, some 2⟩
  exact ⟨h.1 rfl, h.2.1, h.2.2 (by decide)⟩

/-- C10: a notification of the watched participant whose old state is
present but carries no channel while the new state carries one reaches the
moved-channels comparison and panics on the unwrap of the absent old
channel — none of enable, disable or join happens. -/
theorem moved_branch_unwrap_panics (w u b : ℕ) :
    voice_state_update w (some ⟨u, none⟩) ⟨w, some b⟩ = PresenceAction.panicked := by
  simp [voice_state_update]

/-- C7: a `Playing` event whose track lookup fails, or whose artist lookup
fails (for a track that has a first artist), leaves the displayed status
unchanged and does not abort the event loop. -/
theorem playing_metadata_failure (current : Option String) (track : Track)
    (artistLookup : ℕ → Option Artist) (aid : ℕ) (rest : List ℕ)
    (hart : track.artists = aid :: rest) (hfail : artistLookup aid = none) :
    handlePlaying current none artistLookup = EventOutcome.status current ∧
    handlePlaying current (some track) artistLookup = EventOutcome.status current := by
  constructor
  · rfl
  · simp [handlePlaying, hart, hfail]

theorem playing_metadata_failure_witness :
    handlePlaying (some "a: b") none (fun _ => none) = EventOutcome.status (some "a: b") ∧
    handlePlaying (some "a: b") (some ⟨"t", [4]⟩) (fun _ => none)
      = EventOutcome.status (some "a: b") :=
  playing_metadata_failure (some "a: b") ⟨"t", [4]⟩ (fun _ => none) 4 [] rfl rfl

/-- C8: `disable_connect` with no active session is a no-op — the player
state is unchanged and no effect (and no error) is produced; with an active
session it performs exactly the shutdown effect and still changes no state. -/
theorem disable_connect_lifecycle (p : SpotifyPlayer) :
    (p.spirc = none → disable_connect p = (p, [])) ∧
    (∀ s : ℕ, p.spirc = some s → disable_connect p = (p, [PlayerEffect.shutdown])) ∧
    (disable_connect p).1 = p := by
  refine ⟨?_, ?_, ?_⟩
  · intro h
    simp [disable_connect, h]
  · intro s h
    simp [disable_connect, h]
  · rw [disable_connect]
    cases p.spirc <;> rfl

theorem disable_connect_lifecycle_witness :
    disable_connect ⟨none, none⟩ = (⟨none, none⟩, []) ∧
    disable_connect ⟨some 5, some 9⟩ = (⟨some 5, some 9⟩, [PlayerEffect.shutdown]) :=
  ⟨(disable_connect_lifecycle ⟨none, none⟩).1 rfl,
   (disable_connect_lifecycle ⟨some 5, some 9⟩).2.1 5 rfl⟩

/-- C9: the mixer every enabled session uses reports volume 50 no matter how
many `set_volume` calls happen and no matter which initial volume
`enable_connect` was given — `set_volume` is a no-op and the configured
initial volume never influences the reported volume. -/
theorem mixer_volume_constant (device_name : String) (device_type : ℕ)
    (initial_volume : ℕ) (volume_ctrl : ℕ) (vols : List ℕ) :
    (vols.foldl ImpliedMixer.set_volume
        (enable_connect_mixer device_name device_type initial_volume volume_ctrl)).volume
      = 50 ∧
    (ImpliedMixer.open' none).volume = 50 := by
  constructor
  · induction vols with
    | nil => rfl
    | cons v vs ih => exact ih
  · rfl
